import Mathlib

/-!
Verification development for the child-side process-launch engine of
`src/java.base/unix/native/libjava/childproc.c`.

The C file is embedded shallowly: the kernel's file-descriptor table is an
association list from descriptor numbers to their close-on-exec flag,
system calls (`close`, `dup2`, `fcntl`, `read`, `write`, `execve`, ...)
become pure functions on that state or oracles supplied as parameters, and
the straight-line child code becomes explicit state passing with the C
control flow (`goto WhyCantJohnnyExec`, early `return`, the PATH loop)
reproduced match-for-match.
-/

namespace ChildProc

/-! ### Platform constants (errno values, limits)

Numeric errno values as on Linux; the development only relies on the codes
being pairwise distinct, mirroring how the C source only compares them. -/

def EINTR : Int := 4
def ENOEXEC : Int := 8
def EBADF : Int := 9
def EACCES : Int := 13
def ENOENT : Int := 2
def ENOTDIR : Int := 20
def ELOOP : Int := 40
def ESTALE : Int := 116
def ENODEV : Int := 19
def ETIMEDOUT : Int := 110
def ENAMETOOLONG : Int := 36
def PATH_MAX : Nat := 4096

def STDIN_FILENO : Int := 0
def STDOUT_FILENO : Int := 1
def STDERR_FILENO : Int := 2

/-- Modelled from the spec: `FAIL_FILENO` is declared in `childproc.h`
(not part of the sources here); it is the "fixed, reserved descriptor
number that is guaranteed not to collide with 0/1/2" onto which the
failure channel is moved, the first descriptor after stderr. -/
def FAIL_FILENO : Int := STDERR_FILENO + 1

/-- Modelled from the spec: `CHILD_IS_ALIVE` is the fixed sentinel value
written as the alive-ping, declared in `childproc.h`. Only its identity
matters to the claims. -/
def CHILD_IS_ALIVE : Int := 1

/-- Modelled from the spec: the launch modes declared in `childproc.h`.
`MODE_VFORK` is the shared-address-space mode; the others copy the
address space. -/
inductive Mode where
  | fork
  | posixSpawn
  | vfork
  | clone
deriving DecidableEq, Repr

/-! ### The file-descriptor table

`FdState` maps each open descriptor number to its `FD_CLOEXEC` flag.
Descriptors absent from the list are closed.  The C interface passes
descriptors as `int`, with `-1` the "absent" sentinel, so the syscall
wrappers take `Int` arguments. -/

abbrev FdState := List (Nat × Bool)

/-- Flag word of descriptor `fd`, or `none` when `fd` is not open. -/
def getFd (s : FdState) (fd : Nat) : Option Bool :=
  (s.find? (fun e => e.1 = fd)).map (·.2)

/-- Install (or overwrite) the flag word of descriptor `fd`. -/
def setFd (s : FdState) (fd : Nat) (b : Bool) : FdState :=
  (fd, b) :: s.filter (fun e => e.1 ≠ fd)

/-- Remove descriptor `fd` from the table. -/
def delFd (s : FdState) (fd : Nat) : FdState :=
  s.filter (fun e => e.1 ≠ fd)

/-- Look up an `int`-typed descriptor: negative numbers are never open. -/
def lookupI (s : FdState) (fd : Int) : Option Bool :=
  if fd < 0 then none else getFd s fd.toNat

/-- Embeds `close(2)`: succeeds exactly on open descriptors, removing them;
fails (returns `-1`, errno `EBADF`) otherwise. -/
def closeM (s : FdState) (fd : Int) : Int × FdState :=
  match lookupI s fd with
  | none => (-1, s)
  | some _ => (0, delFd s fd.toNat)

/-- Embeds `dup2(2)`: fails when the source is not open or the target is
negative; duplicating a descriptor onto itself returns the target and
changes nothing; otherwise the target becomes a copy of the source with
the close-on-exec flag cleared.  `RESTARTABLE` retrying on `EINTR` is
invisible at this level, so `restartableDup2` is the same function. -/
def dup2M (s : FdState) (fdFrom fdTo : Int) : Int × FdState :=
  match lookupI s fdFrom with
  | none => (-1, s)
  | some _ =>
    if fdTo < 0 then (-1, s)
    else if fdFrom = fdTo then (fdTo, s)
    else (fdTo, setFd s fdTo.toNat false)

/-- Embeds `closeSafely` from childproc.c line 49: the `-1` sentinel (an absent /
already-closed launch-machinery descriptor) is success; everything else is
a plain `close`. -/
def closeSafely (s : FdState) (fd : Int) : Int × FdState :=
  if fd = -1 then (0, s) else closeM s fd

/-- Embeds `moveDescriptor` from childproc.c line 121: a self-move is a no-op;
otherwise `dup2` then `close` the source, failing if either fails. -/
def moveDescriptor (s : FdState) (fdFrom fdTo : Int) : Int × FdState :=
  if fdFrom ≠ fdTo then
    match dup2M s fdFrom fdTo with
    | (-1, s1) => (-1, s1)
    | (_, s1) =>
      match closeM s1 fdFrom with
      | (-1, s2) => (-1, s2)
      | (_, s2) => (0, s2)
  else (0, s)

/-- Embeds `markCloseOnExec` from childproc.c line 55: fetch the flag word
(`F_GETFD`, failing on a closed descriptor), and set `FD_CLOEXEC` only if
it is not already set.  `none` models the `-1` error return. -/
def markCloseOnExec (s : FdState) (fd : Int) : Option FdState :=
  match lookupI s fd with
  | none => none
  | some flag => some (if flag then s else setFd s fd.toNat true)

/-- Value of the leading run of decimal digits of a string (`strtol`
base 10 on a `/proc/self/fd` entry name, which is a pure digit run). -/
def strtolNat (name : String) : Nat :=
  go name.toList 0
where
  go : List Char → Nat → Nat
    | [], acc => acc
    | c :: rest, acc =>
      if c.isDigit then go rest (acc * 10 + (c.toNat - '0'.toNat)) else acc

/-- Embeds `isAsciiDigit` from childproc.c line 70. -/
def isAsciiDigit (c : Char) : Bool :=
  '0' ≤ c ∧ c ≤ '9'

/-- The body of the `readdir` loop of `markDescriptorsCloseOnExec`
(childproc.c lines 105–114): each directory entry whose name starts with
an ASCII digit and parses to a descriptor `≥ STDERR_FILENO + 1` is marked
close-on-exec; a marking failure aborts the whole walk with `-1`. -/
def markDirentsLoop (s : FdState) : List String → Option FdState
  | [] => some s
  | name :: rest =>
    if isAsciiDigit (name.toList.headD ' ') ∧ strtolNat name ≥ (STDERR_FILENO + 1).toNat then
      match markCloseOnExec s (strtolNat name : Int) with
      | none => none
      | some s1 => markDirentsLoop s1 rest
    else markDirentsLoop s rest

/-- Embeds `markDescriptorsCloseOnExec` from childproc.c line 85: enumerate the
per-process fd directory (the `dirents` parameter is the `readdir`
listing, `none` when `opendir` fails) and mark every listed descriptor
beyond stderr close-on-exec. -/
def markDescriptorsCloseOnExec (dirents : Option (List String)) (s : FdState) :
    Option FdState :=
  match dirents with
  | none => none
  | some names => markDirentsLoop s names

/-- The linear-scan fallback of childProcess (childproc.c lines 411–415):
try every descriptor number from `STDERR_FILENO + 1` below `maxFd`
(`sysconf(_SC_OPEN_MAX)`), tolerating `EBADF` — which in this model is the
only way `markCloseOnExec` fails, on a closed descriptor. -/
def fallbackMarkLoop (s : FdState) : Nat → Nat → FdState
  | fd, fuel =>
    match fuel with
    | 0 => s
    | fuel' + 1 =>
      match markCloseOnExec s (fd : Int) with
      | none => fallbackMarkLoop s (fd + 1) fuel'
      | some s1 => fallbackMarkLoop s1 (fd + 1) fuel'

def fallbackMark (maxFd : Nat) (s : FdState) : FdState :=
  fallbackMarkLoop s (STDERR_FILENO + 1).toNat (maxFd - (STDERR_FILENO + 1).toNat)

/-- The quarantine step of childProcess (childproc.c lines 409–416):
directory enumeration first, the linear scan only when enumeration
fails. -/
def quarantineStep (dirents : Option (List String)) (maxFd : Nat) (s : FdState) :
    FdState :=
  match markDescriptorsCloseOnExec dirents s with
  | some s1 => s1
  | none => fallbackMark maxFd s

/-! ### Program execution (childproc.c lines 221–348)

The exec system calls are oracles: `none` means the call succeeded and the
process image was replaced (the call never returns), `some e` means it
returned with errno `e`.  Runs record every exec invocation (path and
argument vector) so ordering claims are expressible. -/

structure ExecSys where
  /-- Result of `execve(path, argv, envp)`. -/
  execve : String → List String → List String → Option Int
  /-- Result of `execvp(file, argv)`; the third argument is the `environ` in
  effect at the call. -/
  execvp : String → List String → List String → Option Int

/-- Outcome of one candidate-execution attempt: the exec calls issued, the
errno left behind (`none` = image replaced), and the contents of the
caller's argument vector when control falls through. -/
structure ExecTry where
  calls : List (String × List String)
  errno : Option Int
  argvFinal : List String
deriving DecidableEq

/-- Embeds `execve_as_traditional_shell_script` from childproc.c line 227: shift
the argument vector right by one into the caller-reserved slack slot, set
`argv[0] = "/bin/sh"` and `argv[1] = file`, exec, and on failure shift
back and restore `argv[0]`. -/
def execve_as_traditional_shell_script (sys : ExecSys) (file : String)
    (argv : List String) (envp : List String) : ExecTry :=
  let argv0 := argv.headD ""
  let shifted := "/bin/sh" :: file :: argv.drop 1
  match sys.execve "/bin/sh" shifted envp with
  | none => ⟨[("/bin/sh", shifted)], none, shifted⟩
  | some e => ⟨[("/bin/sh", shifted)], some e, argv0 :: shifted.drop 2⟩

/-- Embeds `execve_with_shell_fallback` from childproc.c line 250: in
`MODE_VFORK` a plain `execve`, retried as a traditional shell script on
`ENOEXEC`; in the other modes `environ` is set to `envp` and `execvp`
does the work. -/
def execve_with_shell_fallback (sys : ExecSys) (mode : Mode) (file : String)
    (argv : List String) (envp : List String) : ExecTry :=
  match mode with
  | .vfork =>
    match sys.execve file argv envp with
    | none => ⟨[(file, argv)], none, argv⟩
    | some e =>
      if e = ENOEXEC then
        let t := execve_as_traditional_shell_script sys file argv envp
        ⟨(file, argv) :: t.calls, t.errno, t.argvFinal⟩
      else ⟨[(file, argv)], some e, argv⟩
  | _ => ⟨[(file, argv)], sys.execvp file argv envp, argv⟩

/-- A whole `JDK_execvpe` run: exec calls issued, whether the image was
replaced, and the errno on return (meaningful only when not replaced). -/
structure ExecvpeRun where
  calls : List (String × List String)
  replaced : Bool
  errno : Int
deriving DecidableEq

/-- Candidate construction of childproc.c lines 304–308: `dir + "/" +
file`, without doubling the slash when the last character of `dir`
(`expanded_file[dirlen - 1]`) is already a slash. -/
def buildCandidate (dir file : String) : String :=
  if dir.toList.getLast? = some '/' then dir ++ file else dir ++ "/" ++ file

/-- The PATH-search loop of `JDK_execvpe` (childproc.c lines 297–346),
threading the C `errno` and `sticky_errno` variables: an over-long
candidate is skipped with `ENAMETOOLONG`; `EACCES` is recorded sticky and
the search continues; `ENOENT`, `ENOTDIR`, `ELOOP`, `ESTALE`, `ENODEV`
and `ETIMEDOUT` continue silently; anything else returns immediately; on
exhaustion a recorded sticky errno is restored. -/
def pathLoop (sys : ExecSys) (mode : Mode) (file : String)
    (argv envp : List String) : List String → Int → Int → ExecvpeRun
  | [], errno, sticky => ⟨[], false, if sticky ≠ 0 then sticky else errno⟩
  | dir :: rest, errno, sticky =>
    if file.length + dir.length + 2 ≥ PATH_MAX then
      pathLoop sys mode file argv envp rest ENAMETOOLONG sticky
    else
      let t := execve_with_shell_fallback sys mode (buildCandidate dir file) argv envp
      match t.errno with
      | none => ⟨t.calls, true, errno⟩
      | some e =>
        if e = EACCES ∨ e = ENOENT ∨ e = ENOTDIR ∨ e = ELOOP ∨ e = ESTALE ∨
            e = ENODEV ∨ e = ETIMEDOUT then
          let r := pathLoop sys mode file argv envp rest e
            (if e = EACCES then e else sticky)
          ⟨t.calls ++ r.calls, r.replaced, r.errno⟩
        else ⟨t.calls, false, e⟩

/-- Embeds `JDK_execvpe` from childproc.c line 274.  `envIsEnviron` models the C
pointer comparison `(char **) envp == environ`; `environLive` is the
process environment seen by the inherited-environment `execvp` fast path;
`parentPathv` is the parent's saved PATH split into entries; `errno0` is
the value of `errno` on entry. -/
def JDK_execvpe (sys : ExecSys) (environLive : List String)
    (parentPathv : List String) (mode : Mode) (file : String)
    (argv : List String) (envp : Option (List String)) (envIsEnviron : Bool)
    (errno0 : Int) : ExecvpeRun :=
  if envp = none ∨ envIsEnviron then
    match sys.execvp file argv environLive with
    | none => ⟨[(file, argv)], true, errno0⟩
    | some e => ⟨[(file, argv)], false, e⟩
  else
    let env := envp.getD []
    if file = "" then ⟨[], false, ENOENT⟩
    else if file.toList.contains '/' then
      let t := execve_with_shell_fallback sys mode file argv env
      match t.errno with
      | none => ⟨t.calls, true, errno0⟩
      | some e => ⟨t.calls, false, e⟩
    else pathLoop sys mode file argv env parentPathv errno0 0

/-! ### Reliable I/O primitives (childproc.c lines 144–206)

A transport is a finite list of responses, one per underlying `read` /
`write` system call: an interruption, a hard error, or a transfer of up
to `k` bytes.  For `read` the bytes come off a `data` stream (an empty
stream yields the 0 return, end-of-file); for `write` they come off the
caller's buffer.  Running out of responses models a loop that never
finishes and yields `none`. -/

inductive IOEv where
  /-- The call returned -1 with errno `EINTR`. -/
  | eintr : IOEv
  /-- The call returned -1 with errno `e` (not `EINTR`). -/
  | ioerr (e : Int) : IOEv
  /-- The kernel is willing to transfer up to `k` bytes on this call. -/
  | chunk (k : Nat) : IOEv
deriving DecidableEq

/-- Result of `readFully` / `writeFully`: the C return value together
with the bytes placed in the destination (buffer or descriptor), in
order. -/
structure FullyRes where
  ret : Int
  bytes : List Nat
deriving DecidableEq

/-- The `readFully` loop (childproc.c lines 148–165).  `rem` is the C
`remaining` counter, `acc` the bytes deposited in the buffer so far. -/
def readFullyLoop (nbyte : Nat) : List IOEv → List Nat → Nat → List Nat →
    Option FullyRes
  | [], _, _, _ => none
  | .chunk k :: evs, data, rem, acc =>
    let n := min (min k rem) data.length
    if n = 0 then some ⟨(nbyte : Int) - (rem : Int), acc⟩
    else
      let rem' := rem - n
      let acc' := acc ++ data.take n
      if rem' = 0 then some ⟨(nbyte : Int), acc'⟩
      else readFullyLoop nbyte evs (data.drop n) rem' acc'
  | .eintr :: evs, data, rem, acc => readFullyLoop nbyte evs data rem acc
  | .ioerr _ :: _, _, _, acc => some ⟨-1, acc⟩

/-- Embeds `readFully` from childproc.c line 144: read `nbyte` bytes, retrying
on `EINTR` and resuming partial reads; a `read` returning 0 (end of
file) returns the count obtained so far; any other error returns -1. -/
def readFully (evs : List IOEv) (data : List Nat) (nbyte : Nat) :
    Option FullyRes :=
  readFullyLoop nbyte evs data nbyte []

/-- The `writeFully` loop (childproc.c lines 190–205).  A `write`
returning 0 falls into the error arm of the C conditional chain and
yields -1. -/
def writeFullyLoop (nbyte : Nat) : List IOEv → List Nat → Nat → List Nat →
    Option FullyRes
  | [], _, _, _ => none
  | .chunk k :: evs, buf, rem, out =>
    let n := min k rem
    if 0 < n then
      let rem' := rem - n
      let out' := out ++ buf.take n
      if rem' = 0 then some ⟨(nbyte : Int), out'⟩
      else writeFullyLoop nbyte evs (buf.drop n) rem' out'
    else some ⟨-1, out⟩
  | .eintr :: evs, buf, rem, out => writeFullyLoop nbyte evs buf rem out
  | .ioerr _ :: _, _, _, out => some ⟨-1, out⟩

/-- Embeds `writeFully` from childproc.c line 175: write the `nbyte` bytes of
`buf`, retrying on `EINTR` and resuming partial writes; any other error
returns -1. -/
def writeFully (evs : List IOEv) (buf : List Nat) (nbyte : Nat) :
    Option FullyRes :=
  writeFullyLoop nbyte evs buf nbyte []

/-- Number of `chunk` responses in a transport. -/
def chunkCount (evs : List IOEv) : Nat :=
  (evs.filter (fun ev => match ev with | .chunk _ => true | _ => false)).length

/-- Holds (as `true`) unless the response is a `chunk` offering zero bytes. -/
def chunkOk : IOEv → Bool
  | .chunk k => 1 ≤ k
  | _ => true

/-- Holds (as `true`) exactly on hard-error responses. -/
def isErr : IOEv → Bool
  | .ioerr _ => true
  | _ => false

/-- Every `chunk` response offers at least one byte. -/
def chunksPos (evs : List IOEv) : Prop :=
  ∀ ev ∈ evs, chunkOk ev = true

/-- No hard-error response. -/
def noIOErr (evs : List IOEv) : Prop :=
  ∀ ev ∈ evs, isErr ev = false

instance : DecidablePred chunksPos := fun evs =>
  inferInstanceAs (Decidable (∀ ev ∈ evs, chunkOk ev = true))

instance : DecidablePred noIOErr := fun evs =>
  inferInstanceAs (Decidable (∀ ev ∈ evs, isErr ev = false))

/-! ### childProcess (childproc.c lines 356–449)

`ChildStuff` carries the fields of the C struct that `childProcess`
reads; pipe pairs are `(end0, end1)` matching the C arrays, with `-1` the
absent sentinel.  `ChildWorld` supplies the initial descriptor table and
the outcome of every system call whose result is not determined by that
table: the alive-ping transport, the fd-directory listing, `chdir`, and
the exec oracles.  A run records the messages written to the failure
channel (at the granularity of whole `int`s — pipe writes of a few bytes
are atomic, so a failed `writeFully` delivers nothing), whether the
failure tail explicitly closed the channel, and the signal mask in force
when `JDK_execvpe` was reached. -/

structure ChildStuff where
  inPipe : Int × Int
  outPipe : Int × Int
  errPipe : Int × Int
  childenvPipe : Int × Int
  failPipe : Int × Int
  fds : Int × Int × Int
  redirectErrorStream : Bool
  sendAlivePing : Bool
  pdir : Option String
  mode : Mode
  argv : List String
  envv : Option (List String)

structure ChildWorld where
  fds0 : FdState
  sigmask : List Nat
  /-- Outcome of the alive-ping `writeFully`: `none` = full success,
  `some e` = it returned a value other than `sizeof(code)`, with errno
  `e`. -/
  pingErr : Option Int
  dirents : Option (List String)
  maxFd : Nat
  /-- Outcome of `chdir` when a working directory was requested. -/
  chdirErr : Option Int
  sys : ExecSys
  environLive : List String
  envIsEnviron : Bool
  parentPathv : List String
  errno0 : Int

inductive ChildOutcome where
  | execSuccess
  | exited (code : Int)
deriving DecidableEq

structure ChildRun where
  outcome : ChildOutcome
  failMsgs : List Int
  failClosed : Bool
  maskAtExec : Option (List Nat)
deriving DecidableEq

/-- A `closeSafely` call inside the `goto`-guarded chain: a `-1` return
routes to the failure tail with the errno (`EBADF`) left by `close`. -/
def closeSafelyE (s : FdState) (fd : Int) : Except Int FdState :=
  match closeSafely s fd with
  | (r, s1) => if r = -1 then .error EBADF else .ok s1

/-- A `moveDescriptor` call inside the `goto`-guarded chain. -/
def moveDescriptorE (s : FdState) (fdFrom fdTo : Int) : Except Int FdState :=
  match moveDescriptor s fdFrom fdTo with
  | (r, s1) => if r = -1 then .error EBADF else .ok s1

/-- A `restartableDup2` call inside the `goto`-guarded chain. -/
def dup2E (s : FdState) (fdFrom fdTo : Int) : Except Int FdState :=
  match dup2M s fdFrom fdTo with
  | (r, s1) => if r = -1 then .error EBADF else .ok s1

/-- Rewiring step 1 (childproc.c lines 377–383): close the parent sides
of the pipes, left to right, short-circuiting to the failure tail on the
first real failure. -/
def closeParentSides (p : ChildStuff) (s : FdState) : Except Int FdState := do
  let s ← closeSafelyE s p.inPipe.2
  let s ← closeSafelyE s p.outPipe.1
  let s ← closeSafelyE s p.errPipe.1
  let s ← closeSafelyE s p.childenvPipe.1
  let s ← closeSafelyE s p.childenvPipe.2
  closeSafelyE s p.failPipe.1

/-- Rewiring steps 2–5 and the quarantine and chdir stages (childproc.c
lines 385–420): everything between the pipe closes and the signal-mask
reset, as one `goto`-guarded chain. -/
def childBody (p : ChildStuff) (w : ChildWorld) : Except Int FdState := do
  let s ← closeParentSides p w.fds0
  let s ← moveDescriptorE s (if p.inPipe.1 ≠ -1 then p.inPipe.1 else p.fds.1)
    STDIN_FILENO
  let s ← moveDescriptorE s (if p.outPipe.2 ≠ -1 then p.outPipe.2 else p.fds.2.1)
    STDOUT_FILENO
  let s ←
    if p.redirectErrorStream then do
      let s ← closeSafelyE s p.errPipe.2
      dup2E s STDOUT_FILENO STDERR_FILENO
    else
      moveDescriptorE s (if p.errPipe.2 ≠ -1 then p.errPipe.2 else p.fds.2.2)
        STDERR_FILENO
  let s ← moveDescriptorE s p.failPipe.2 FAIL_FILENO
  let s := quarantineStep w.dirents w.maxFd s
  match p.pdir with
  | some _ =>
    match w.chdirErr with
    | some e => throw e
    | none => pure s
  | none => pure s

/-- Embeds `childProcess` from childproc.c line 356: alive-ping, rewiring,
quarantine, chdir, signal-mask reset, exec, with every failure funnelled
into the `WhyCantJohnnyExec` tail that writes the captured errno to the
failure channel, closes it, and calls `_exit(-1)`. -/
def childProcess (p : ChildStuff) (w : ChildWorld) : ChildRun :=
  match (if p.sendAlivePing then w.pingErr else none) with
  | some e => ⟨.exited (-1), [e], true, none⟩
  | none =>
    let msgs := if p.sendAlivePing then [CHILD_IS_ALIVE] else []
    match childBody p w with
    | .error e => ⟨.exited (-1), msgs ++ [e], true, none⟩
    | .ok _ =>
      let mask := if p.mode ≠ .vfork then [] else w.sigmask
      let r := JDK_execvpe w.sys w.environLive w.parentPathv p.mode
        (p.argv.headD "") p.argv p.envv w.envIsEnviron w.errno0
      if r.replaced then ⟨.execSuccess, msgs, false, some mask⟩
      else ⟨.exited (-1), msgs ++ [r.errno], true, some mask⟩

/-! ### Helper lemmas on the descriptor table -/

theorem find?_filter_ne (s : List (Nat × Bool)) (fd fd' : Nat) (h : fd' ≠ fd) :
    (s.filter (fun e => e.1 ≠ fd)).find? (fun e => e.1 = fd') =
      s.find? (fun e => e.1 = fd') := by
  induction s with
  | nil => rfl
  | cons a rest ih =>
    by_cases ha : a.1 = fd
    · rw [List.filter_cons_of_neg (by simp [ha]),
        List.find?_cons_of_neg _ (by simp [ha, Ne.symm h])]
      exact ih
    · rw [List.filter_cons_of_pos (by simp [ha])]
      by_cases ha' : a.1 = fd'
      · rw [List.find?_cons_of_pos _ (by simp [ha']),
          List.find?_cons_of_pos _ (by simp [ha'])]
      · rw [List.find?_cons_of_neg _ (by simp [ha']),
          List.find?_cons_of_neg _ (by simp [ha'])]
        exact ih

theorem getFd_setFd_self (s : FdState) (fd : Nat) (b : Bool) :
    getFd (setFd s fd b) fd = some b := by
  simp [getFd, setFd, List.find?]

theorem getFd_setFd_ne (s : FdState) (fd fd' : Nat) (b : Bool) (h : fd' ≠ fd) :
    getFd (setFd s fd b) fd' = getFd s fd' := by
  have hne : ¬(decide (fd = fd') = true) := by simp [Ne.symm h]
  simp only [getFd, setFd, List.find?, hne]
  rw [find?_filter_ne s fd fd' h]

theorem getFd_delFd_ne (s : FdState) (fd fd' : Nat) (h : fd' ≠ fd) :
    getFd (delFd s fd) fd' = getFd s fd' := by
  simp only [getFd, delFd]
  rw [find?_filter_ne s fd fd' h]

/-! ### C8: moveDescriptor -/

/-- C8: for every descriptor `d`, `moveDescriptor d d` is a no-op that
returns success (no duplication, nothing closed, state unchanged), while
for distinct open source and non-negative target it duplicates the source
onto the target and then closes the source. -/
theorem moveDescriptor_self_noop (s : FdState) (d : Int) :
    moveDescriptor s d d = (0, s) ∧
    (∀ fdFrom fdTo : Int, ∀ b : Bool, fdFrom ≠ fdTo → 0 ≤ fdTo →
      lookupI s fdFrom = some b →
      moveDescriptor s fdFrom fdTo =
        (0, delFd (setFd s fdTo.toNat false) fdFrom.toNat)) := by
  constructor
  · simp [moveDescriptor]
  · intro fdFrom fdTo b hne hto hopen
    have hfrom : ¬ fdFrom < 0 := by
      intro hlt
      simp [lookupI, hlt] at hopen
    have hkey : fdFrom.toNat ≠ fdTo.toNat := by
      intro hk
      apply hne
      omega
    have hdup : dup2M s fdFrom fdTo = (fdTo, setFd s fdTo.toNat false) := by
      simp [dup2M, hopen, hne, not_lt.mpr hto]
    have hopen1 : lookupI (setFd s fdTo.toNat false) fdFrom = some b := by
      simpa [lookupI, hfrom, getFd_setFd_ne _ _ _ _ hkey] using hopen
    have hclose : closeM (setFd s fdTo.toNat false) fdFrom =
        (0, delFd (setFd s fdTo.toNat false) fdFrom.toNat) := by
      simp [closeM, hopen1]
    have htne : fdTo ≠ -1 := by omega
    simp only [moveDescriptor, if_pos hne, hdup]
    rw [hclose]
    rfl

/-- Witness for C8 at a concrete table: fd 5 open, moved onto fd 0. -/
theorem moveDescriptor_self_noop_witness :
    ((5 : Int) ≠ 0 ∧ (0 : Int) ≤ 0 ∧
      lookupI [(5, false), (0, true)] 5 = some false) ∧
    moveDescriptor [(5, false), (0, true)] 5 5 = (0, [(5, false), (0, true)]) ∧
    moveDescriptor [(5, false), (0, true)] 5 0 =
      (0, delFd (setFd [(5, false), (0, true)] 0 false) 5) :=
  ⟨⟨by decide, by decide, by decide⟩,
    (moveDescriptor_self_noop [(5, false), (0, true)] 5).1,
    (moveDescriptor_self_noop [(5, false), (0, true)] 5).2 5 0 false
      (by decide) (by decide) (by decide)⟩

/-! ### C7: closeSafely on absent descriptors -/

/-- C7: `closeSafely` treats the `-1` sentinel — the representation of an
already-closed or absent leftover pipe end — as success without touching
the descriptor table, and rewiring step 1 of childProcess (the
`closeParentSides` chain) succeeds, rather than routing to the failure
tail, whenever all six leftover launch-machinery ends are absent. -/
theorem closeSafely_absent (s : FdState) (p : ChildStuff) :
    closeSafely s (-1) = (0, s) ∧
    (p.inPipe.2 = -1 → p.outPipe.1 = -1 → p.errPipe.1 = -1 →
      p.childenvPipe.1 = -1 → p.childenvPipe.2 = -1 → p.failPipe.1 = -1 →
      closeParentSides p s = .ok s) := by
  constructor
  · simp [closeSafely]
  · intro h1 h2 h3 h4 h5 h6
    simp only [closeParentSides, closeSafelyE, closeSafely, h1, h2, h3, h4, h5,
      h6, if_pos, reduceIte]
    rfl

/-- Witness for C7: a launch descriptor whose leftover ends are all
absent, over a nonempty descriptor table. -/
theorem closeSafely_absent_witness :
    closeSafely [(0, false)] (-1) = (0, [(0, false)]) ∧
    closeParentSides
      { inPipe := (-1, -1), outPipe := (-1, -1), errPipe := (-1, -1),
        childenvPipe := (-1, -1), failPipe := (-1, 3), fds := (0, 1, 2),
        redirectErrorStream := false, sendAlivePing := false, pdir := none,
        mode := .fork, argv := ["prog"], envv := none }
      [(0, false)] = .ok [(0, false)] :=
  ⟨(closeSafely_absent [(0, false)]
      { inPipe := (-1, -1), outPipe := (-1, -1), errPipe := (-1, -1),
        childenvPipe := (-1, -1), failPipe := (-1, 3), fds := (0, 1, 2),
        redirectErrorStream := false, sendAlivePing := false, pdir := none,
        mode := .fork, argv := ["prog"], envv := none }).1,
    (closeSafely_absent [(0, false)]
      { inPipe := (-1, -1), outPipe := (-1, -1), errPipe := (-1, -1),
        childenvPipe := (-1, -1), failPipe := (-1, 3), fds := (0, 1, 2),
        redirectErrorStream := false, sendAlivePing := false, pdir := none,
        mode := .fork, argv := ["prog"], envv := none }).2
      rfl rfl rfl rfl rfl rfl⟩

/-! ### C10: empty program path -/

/-- C10: with a non-inherited environment vector (not `NULL`, not the
live `environ`) and an empty program path, `JDK_execvpe` performs no exec
attempt at all and returns with errno `ENOENT`. -/
theorem JDK_execvpe_empty_file (sys : ExecSys) (environLive : List String)
    (parentPathv : List String) (mode : Mode) (argv env : List String)
    (errno0 : Int) :
    JDK_execvpe sys environLive parentPathv mode "" argv (some env) false
      errno0 = ⟨[], false, ENOENT⟩ := by
  simp [JDK_execvpe]

/-! ### C9: signal-mask reset -/

/-- C9: whenever `childProcess` reaches the exec stage, the signal mask
then in force is the empty set exactly when the mode is not `MODE_VFORK`;
in `MODE_VFORK` it is the initial mask, untouched. -/
theorem childProcess_sigmask (p : ChildStuff) (w : ChildWorld) (m : List Nat)
    (h : (childProcess p w).maskAtExec = some m) :
    (p.mode = .vfork → m = w.sigmask) ∧
    (p.mode ≠ .vfork → m = []) ∧
    (w.sigmask ≠ [] → (m = [] ↔ p.mode ≠ .vfork)) := by
  have hm : m = if p.mode ≠ .vfork then [] else w.sigmask := by
    unfold childProcess at h
    cases hping : (if p.sendAlivePing then w.pingErr else none) with
    | some e => rw [hping] at h; simp at h
    | none =>
      rw [hping] at h
      cases hbody : childBody p w with
      | error e => rw [hbody] at h; simp at h
      | ok s =>
        rw [hbody] at h
        by_cases hr : (JDK_execvpe w.sys w.environLive w.parentPathv p.mode
            (p.argv.headD "") p.argv p.envv w.envIsEnviron w.errno0).replaced
        · simp only [hr, if_pos, if_true] at h
          simpa using h.symm
        · simp only [hr, if_false, Bool.false_eq_true, if_neg] at h
          simpa using h.symm
  refine ⟨fun hv => by simp [hm, hv], fun hv => by simp [hm, hv], fun hs => ?_⟩
  by_cases hv : p.mode = .vfork
  · simp [hm, hv, hs]
  · simp [hm, hv]

/-- Witness for C9: a run that reaches the exec stage in `MODE_FORK`
with a nonempty initial mask observes the empty mask there. -/
theorem childProcess_sigmask_witness :
    (childProcess
      { inPipe := (-1, -1), outPipe := (-1, -1), errPipe := (-1, -1),
        childenvPipe := (-1, -1), failPipe := (-1, 3), fds := (0, 1, 2),
        redirectErrorStream := false, sendAlivePing := false, pdir := none,
        mode := .fork, argv := ["prog"], envv := none }
      { fds0 := [(0, false), (1, false), (2, false), (3, false)],
        sigmask := [5], pingErr := none, dirents := some [], maxFd := 8,
        chdirErr := none,
        sys := { execve := fun _ _ _ => some 2, execvp := fun _ _ _ => some 2 },
        environLive := [], envIsEnviron := false, parentPathv := [],
        errno0 := 0 }).maskAtExec = some [] ∧
    (([5] : List Nat) ≠ [] ∧ (([] : List Nat) = [] ↔ Mode.fork ≠ Mode.vfork)) :=
  ⟨by decide,
    by decide,
    ((childProcess_sigmask
      { inPipe := (-1, -1), outPipe := (-1, -1), errPipe := (-1, -1),
        childenvPipe := (-1, -1), failPipe := (-1, 3), fds := (0, 1, 2),
        redirectErrorStream := false, sendAlivePing := false, pdir := none,
        mode := .fork, argv := ["prog"], envv := none }
      { fds0 := [(0, false), (1, false), (2, false), (3, false)],
        sigmask := [5], pingErr := none, dirents := some [], maxFd := 8,
        chdirErr := none,
        sys := { execve := fun _ _ _ => some 2, execvp := fun _ _ _ => some 2 },
        environLive := [], envIsEnviron := false, parentPathv := [],
        errno0 := 0 } [] (by decide)).2.2 (by decide))⟩

/-! ### C4: ENOEXEC shell fallback in MODE_VFORK -/

/-- C4: in `MODE_VFORK`, a direct `execve` failing with `ENOEXEC` makes
`execve_with_shell_fallback` retry with the argument vector reshaped (into
the caller-reserved extra slot) to `"/bin/sh"`, the candidate path, then
the original `argv[1..]`; when the shell `execve` also fails, the vector
is restored to its original contents and the errno left behind is the
shell attempt's. -/
theorem execve_with_shell_fallback_enoexec (sys : ExecSys) (file : String)
    (argv envp : List String) (e2 : Int) (hargv : argv ≠ [])
    (h1 : sys.execve file argv envp = some ENOEXEC)
    (h2 : sys.execve "/bin/sh" ("/bin/sh" :: file :: argv.drop 1) envp =
      some e2) :
    execve_with_shell_fallback sys .vfork file argv envp =
      ⟨[(file, argv), ("/bin/sh", "/bin/sh" :: file :: argv.drop 1)],
        some e2, argv⟩ := by
  cases argv with
  | nil => exact absurd rfl hargv
  | cons a rest =>
    simp only [execve_with_shell_fallback, h1, if_pos rfl,
      execve_as_traditional_shell_script, h2]
    simp

/-- Witness for C4 at a concrete oracle: a script whose direct exec gives
`ENOEXEC` and whose shell exec gives `EACCES` (13). -/
theorem execve_with_shell_fallback_enoexec_witness :
    ((["prog.sh", "x"] : List String) ≠ [] ∧
      (ExecSys.mk
        (fun path _ _ => if path = "/bin/sh" then some 13 else some ENOEXEC)
        (fun _ _ _ => some 2)).execve "prog.sh" ["prog.sh", "x"] [] =
          some ENOEXEC ∧
      (ExecSys.mk
        (fun path _ _ => if path = "/bin/sh" then some 13 else some ENOEXEC)
        (fun _ _ _ => some 2)).execve "/bin/sh" ["/bin/sh", "prog.sh", "x"] [] =
          some 13) ∧
    execve_with_shell_fallback
      (ExecSys.mk
        (fun path _ _ => if path = "/bin/sh" then some 13 else some ENOEXEC)
        (fun _ _ _ => some 2))
      .vfork "prog.sh" ["prog.sh", "x"] [] =
      ⟨[("prog.sh", ["prog.sh", "x"]),
        ("/bin/sh", ["/bin/sh", "prog.sh", "x"])], some 13,
        ["prog.sh", "x"]⟩ :=
  ⟨⟨by decide, by decide, by decide⟩,
    execve_with_shell_fallback_enoexec
      (ExecSys.mk
        (fun path _ _ => if path = "/bin/sh" then some 13 else some ENOEXEC)
        (fun _ _ _ => some 2))
      "prog.sh" ["prog.sh", "x"] [] 13 (by decide) (by decide) (by decide)⟩

/-! ### C2: PATH-search errno classification -/

/-- C2: in the PATH loop of `JDK_execvpe`, an `EACCES` failure records the
sticky errno and continues; `ENOENT`, `ENOTDIR`, `ELOOP`, `ESTALE`,
`ENODEV` and `ETIMEDOUT` continue silently; any other errno returns
immediately with that errno; exhaustion with a recorded sticky `EACCES`
returns `EACCES`; and on `PATH = "/a:/b"` with `/a/prog` giving `EACCES`
and `/b/prog` giving `ENOENT` the final errno is `EACCES`. -/
theorem pathLoop_classification (sys : ExecSys) (mode : Mode) (file : String)
    (argv envp : List String) :
    (∀ dir rest e0 st,
      file.length + dir.length + 2 < PATH_MAX →
      (execve_with_shell_fallback sys mode (buildCandidate dir file) argv
        envp).errno = some EACCES →
      pathLoop sys mode file argv envp (dir :: rest) e0 st =
        ⟨(execve_with_shell_fallback sys mode (buildCandidate dir file) argv
            envp).calls ++
          (pathLoop sys mode file argv envp rest EACCES EACCES).calls,
          (pathLoop sys mode file argv envp rest EACCES EACCES).replaced,
          (pathLoop sys mode file argv envp rest EACCES EACCES).errno⟩) ∧
    (∀ dir rest e0 st e,
      file.length + dir.length + 2 < PATH_MAX →
      (execve_with_shell_fallback sys mode (buildCandidate dir file) argv
        envp).errno = some e →
      (e = ENOENT ∨ e = ENOTDIR ∨ e = ELOOP ∨ e = ESTALE ∨ e = ENODEV ∨
        e = ETIMEDOUT) →
      pathLoop sys mode file argv envp (dir :: rest) e0 st =
        ⟨(execve_with_shell_fallback sys mode (buildCandidate dir file) argv
            envp).calls ++
          (pathLoop sys mode file argv envp rest e st).calls,
          (pathLoop sys mode file argv envp rest e st).replaced,
          (pathLoop sys mode file argv envp rest e st).errno⟩) ∧
    (∀ dir rest e0 st e,
      file.length + dir.length + 2 < PATH_MAX →
      (execve_with_shell_fallback sys mode (buildCandidate dir file) argv
        envp).errno = some e →
      ¬(e = EACCES ∨ e = ENOENT ∨ e = ENOTDIR ∨ e = ELOOP ∨ e = ESTALE ∨
        e = ENODEV ∨ e = ETIMEDOUT) →
      pathLoop sys mode file argv envp (dir :: rest) e0 st =
        ⟨(execve_with_shell_fallback sys mode (buildCandidate dir file) argv
            envp).calls, false, e⟩) ∧
    (∀ e0, pathLoop sys mode file argv envp [] e0 EACCES =
      ⟨[], false, EACCES⟩) ∧
    (pathLoop
      (ExecSys.mk
        (fun path _ _ => if path = "/a/prog" then some EACCES else some ENOENT)
        (fun path _ _ => if path = "/a/prog" then some EACCES else some ENOENT))
      .vfork "prog" ["prog"] [] ["/a", "/b"] 0 0 =
      ⟨[("/a/prog", ["prog"]), ("/b/prog", ["prog"])], false, EACCES⟩) := by
  refine ⟨?_, ?_, ?_, ?_, ?_⟩
  · intro dir rest e0 st hguard herr
    simp only [pathLoop]
    rw [if_neg (by omega)]
    simp only [herr]
    simp
  · intro dir rest e0 st e hguard herr he
    have hne : e ≠ EACCES := by
      rcases he with h | h | h | h | h | h <;> subst h <;> decide
    simp only [pathLoop]
    rw [if_neg (by omega)]
    simp only [herr]
    rw [if_pos (Or.inr he), if_neg hne]
  · intro dir rest e0 st e hguard herr he
    simp only [pathLoop]
    rw [if_neg (by omega)]
    simp only [herr]
    rw [if_neg he]
  · intro e0
    simp only [pathLoop]
    rw [if_pos (by decide : EACCES ≠ 0)]
  · decide

/-- Witness for C2: the immediate-return arm at a concrete oracle whose
exec attempts fail with `EPERM` (1), an errno in no continue class. -/
theorem pathLoop_classification_witness :
    (("p" : String).length + ("/d" : String).length + 2 < PATH_MAX ∧
      (execve_with_shell_fallback
        (ExecSys.mk (fun _ _ _ => some 1) (fun _ _ _ => some 1)) .vfork
        (buildCandidate "/d" "p") ["p"] []).errno = some 1 ∧
      ¬((1 : Int) = EACCES ∨ (1 : Int) = ENOENT ∨ (1 : Int) = ENOTDIR ∨
        (1 : Int) = ELOOP ∨ (1 : Int) = ESTALE ∨ (1 : Int) = ENODEV ∨
        (1 : Int) = ETIMEDOUT)) ∧
    pathLoop (ExecSys.mk (fun _ _ _ => some 1) (fun _ _ _ => some 1)) .vfork
      "p" ["p"] [] ["/d"] 0 0 =
      ⟨(execve_with_shell_fallback
          (ExecSys.mk (fun _ _ _ => some 1) (fun _ _ _ => some 1)) .vfork
          (buildCandidate "/d" "p") ["p"] []).calls, false, 1⟩ :=
  ⟨⟨by decide, by decide, by decide⟩,
    (pathLoop_classification
      (ExecSys.mk (fun _ _ _ => some 1) (fun _ _ _ => some 1)) .vfork
      "p" ["p"] []).2.2.1 "/d" [] 0 0 1 (by decide) (by decide) (by decide)⟩

/-! ### C5: PATH-search candidate construction and order -/

/-- C5: with a non-inherited environment and a separator-free name,
`JDK_execvpe` runs the PATH loop over the parent's saved `parentPathv`;
candidates are `dir ++ "/" ++ name` with no doubled slash when `dir`
already ends in one; an over-long candidate is skipped with errno
`ENAMETOOLONG` and never attempted; the first successful exec wins; and
on `PATH = "/a:/b:/c"` with the program only in `/c` the attempts are
`/a/prog`, `/b/prog`, `/c/prog` in order, succeeding on the third. -/
theorem JDK_execvpe_path_search (sys : ExecSys) (environLive : List String)
    (pPath : List String) (mode : Mode) (file : String) (argv env : List String)
    (e0 : Int) :
    (file ≠ "" → file.toList.contains '/' = false →
      JDK_execvpe sys environLive pPath mode file argv (some env) false e0 =
        pathLoop sys mode file argv env pPath e0 0) ∧
    (∀ dir f : String, dir.toList.getLast? = some '/' →
      buildCandidate dir f = dir ++ f) ∧
    (∀ dir f : String, dir.toList.getLast? ≠ some '/' →
      buildCandidate dir f = dir ++ "/" ++ f) ∧
    (∀ dir rest est st,
      file.length + dir.length + 2 ≥ PATH_MAX →
      pathLoop sys mode file argv env (dir :: rest) est st =
        pathLoop sys mode file argv env rest ENAMETOOLONG st) ∧
    (∀ dir rest est st,
      file.length + dir.length + 2 < PATH_MAX →
      (execve_with_shell_fallback sys mode (buildCandidate dir file) argv
        env).errno = none →
      pathLoop sys mode file argv env (dir :: rest) est st =
        ⟨(execve_with_shell_fallback sys mode (buildCandidate dir file) argv
            env).calls, true, est⟩) ∧
    (pathLoop
      (ExecSys.mk
        (fun path _ _ => if path = "/c/prog" then none else some ENOENT)
        (fun path _ _ => if path = "/c/prog" then none else some ENOENT))
      .vfork "prog" ["prog"] [] ["/a", "/b", "/c"] 0 0 =
      ⟨[("/a/prog", ["prog"]), ("/b/prog", ["prog"]), ("/c/prog", ["prog"])],
        true, ENOENT⟩) := by
  refine ⟨?_, ?_, ?_, ?_, ?_, ?_⟩
  · intro hfile hsep
    have hmem : '/' ∉ file.data := by
      simpa using hsep
    simp [JDK_execvpe, hfile, hmem]
  · intro dir f h
    have h' : dir.data.getLast? = some '/' := by simpa using h
    simp [buildCandidate, h']
  · intro dir f h
    have h' : ¬ dir.data.getLast? = some '/' := by simpa using h
    simp [buildCandidate, h']
  · intro dir rest est st h
    simp only [pathLoop]
    rw [if_pos h]
  · intro dir rest est st hguard hok
    simp only [pathLoop]
    rw [if_neg (by omega)]
    simp only [hok]
  · decide

/-- Witness for C5: the inherited-free fast path reduces to the PATH loop
for the concrete name `prog`, and a skipped over-long candidate. -/
theorem JDK_execvpe_path_search_witness :
    (("prog" : String) ≠ "" ∧
      ("prog" : String).toList.contains '/' = false) ∧
    JDK_execvpe (ExecSys.mk (fun _ _ _ => some 2) (fun _ _ _ => some 2)) []
      ["/a"] .vfork "prog" ["prog"] (some ["X=1"]) false 0 =
      pathLoop (ExecSys.mk (fun _ _ _ => some 2) (fun _ _ _ => some 2)) .vfork
        "prog" ["prog"] ["X=1"] ["/a"] 0 0 :=
  ⟨⟨by decide, by decide⟩,
    (JDK_execvpe_path_search
      (ExecSys.mk (fun _ _ _ => some 2) (fun _ _ _ => some 2)) [] ["/a"]
      .vfork "prog" ["prog"] ["X=1"] 0).1 (by decide) (by decide)⟩

/-! ### C3: descriptor quarantine postcondition -/

theorem markCloseOnExec_natCast (s : FdState) (n : Nat) :
    markCloseOnExec s (n : Int) =
      match getFd s n with
      | none => none
      | some flag => some (if flag then s else setFd s n true) := by
  unfold markCloseOnExec lookupI
  rw [if_neg (not_lt.mpr (Int.natCast_nonneg n)), Int.toNat_natCast]

theorem markCloseOnExec_marks (s s' : FdState) (n : Nat)
    (h : markCloseOnExec s (n : Int) = some s') : getFd s' n = some true := by
  rw [markCloseOnExec_natCast] at h
  cases hg : getFd s n with
  | none => rw [hg] at h; exact absurd h (by simp)
  | some flag =>
    rw [hg] at h
    cases flag with
    | true =>
      have : s' = s := by simpa using h.symm
      rw [this, hg]
    | false =>
      have : s' = setFd s n true := by simpa using h.symm
      rw [this, getFd_setFd_self]

theorem markCloseOnExec_getFd_ne (s s' : FdState) (n x : Nat) (hx : x ≠ n)
    (h : markCloseOnExec s (n : Int) = some s') : getFd s' x = getFd s x := by
  rw [markCloseOnExec_natCast] at h
  cases hg : getFd s n with
  | none => rw [hg] at h; exact absurd h (by simp)
  | some flag =>
    rw [hg] at h
    cases flag with
    | true =>
      have hss : s' = s := by simpa using h.symm
      rw [hss]
    | false =>
      have hss : s' = setFd s n true := by simpa using h.symm
      rw [hss, getFd_setFd_ne _ _ _ _ hx]

theorem markCloseOnExec_isSome (s s' : FdState) (n x : Nat)
    (h : markCloseOnExec s (n : Int) = some s') :
    (getFd s' x).isSome = (getFd s x).isSome := by
  by_cases hx : x = n
  · subst hx
    rw [markCloseOnExec_marks s s' x h]
    rw [markCloseOnExec_natCast] at h
    cases hg : getFd s x with
    | none => rw [hg] at h; exact absurd h (by simp)
    | some flag => rfl
  · rw [markCloseOnExec_getFd_ne s s' n x hx h]

theorem markDirentsLoop_mono (names : List String) :
    ∀ s s' : FdState, markDirentsLoop s names = some s' →
    ∀ x, getFd s x = some true → getFd s' x = some true := by
  induction names with
  | nil =>
    intro s s' h x hx
    have hs : s = s' := by simpa [markDirentsLoop] using h
    rw [← hs]
    exact hx
  | cons name rest ih =>
    intro s s' h x hx
    unfold markDirentsLoop at h
    split at h
    · cases hm : markCloseOnExec s (strtolNat name : Int) with
      | none => rw [hm] at h; exact absurd h (by simp)
      | some s1 =>
        rw [hm] at h
        refine ih s1 s' h x ?_
        by_cases hxn : x = strtolNat name
        · subst hxn; exact markCloseOnExec_marks s s1 _ hm
        · rw [markCloseOnExec_getFd_ne s s1 _ x hxn hm]; exact hx
    · exact ih s s' h x hx

theorem markDirentsLoop_isSome (names : List String) :
    ∀ s s' : FdState, markDirentsLoop s names = some s' →
    ∀ x, (getFd s' x).isSome = (getFd s x).isSome := by
  induction names with
  | nil =>
    intro s s' h x
    have hs : s = s' := by simpa [markDirentsLoop] using h
    rw [hs]
  | cons name rest ih =>
    intro s s' h x
    unfold markDirentsLoop at h
    split at h
    · cases hm : markCloseOnExec s (strtolNat name : Int) with
      | none => rw [hm] at h; exact absurd h (by simp)
      | some s1 =>
        rw [hm] at h
        rw [ih s1 s' h x, markCloseOnExec_isSome s s1 _ x hm]
    · exact ih s s' h x

theorem markDirentsLoop_marks (names : List String) :
    ∀ s s' : FdState, markDirentsLoop s names = some s' →
    ∀ name ∈ names,
      isAsciiDigit (name.toList.headD ' ') = true →
      3 ≤ strtolNat name →
      getFd s' (strtolNat name) = some true := by
  induction names with
  | nil => intro s s' h name hmem; exact absurd hmem (by simp)
  | cons hd rest ih =>
    intro s s' h name hmem hdig hge
    unfold markDirentsLoop at h
    rcases List.mem_cons.mp hmem with heq | htl
    · subst heq
      rw [if_pos ⟨hdig, by rw [(by decide : (STDERR_FILENO + 1).toNat = 3)]; exact hge⟩] at h
      cases hm : markCloseOnExec s (strtolNat name : Int) with
      | none => rw [hm] at h; exact absurd h (by simp)
      | some s1 =>
        rw [hm] at h
        exact markDirentsLoop_mono rest s1 s' h _ (markCloseOnExec_marks s s1 _ hm)
    · split at h
      · cases hm : markCloseOnExec s (strtolNat hd : Int) with
        | none => rw [hm] at h; exact absurd h (by simp)
        | some s1 => rw [hm] at h; exact ih s1 s' h name htl hdig hge
      · exact ih s s' h name htl hdig hge

theorem fallbackMarkLoop_mono (fuel : Nat) :
    ∀ s fd x, getFd s x = some true →
    getFd (fallbackMarkLoop s fd fuel) x = some true := by
  induction fuel with
  | zero => intro s fd x hx; simpa [fallbackMarkLoop] using hx
  | succ fuel' ih =>
    intro s fd x hx
    unfold fallbackMarkLoop
    cases hm : markCloseOnExec s (fd : Int) with
    | none => exact ih s (fd + 1) x hx
    | some s1 =>
      refine ih s1 (fd + 1) x ?_
      by_cases hxn : x = fd
      · subst hxn; exact markCloseOnExec_marks s s1 _ hm
      · rw [markCloseOnExec_getFd_ne s s1 _ x hxn hm]; exact hx

theorem fallbackMarkLoop_isSome (fuel : Nat) :
    ∀ s fd x, (getFd (fallbackMarkLoop s fd fuel) x).isSome =
      (getFd s x).isSome := by
  induction fuel with
  | zero => intro s fd x; simp [fallbackMarkLoop]
  | succ fuel' ih =>
    intro s fd x
    unfold fallbackMarkLoop
    cases hm : markCloseOnExec s (fd : Int) with
    | none => exact ih s (fd + 1) x
    | some s1 => rw [ih s1 (fd + 1) x, markCloseOnExec_isSome s s1 _ x hm]

theorem fallbackMarkLoop_marks (fuel : Nat) :
    ∀ s fd x, getFd s x ≠ none → fd ≤ x → x < fd + fuel →
    getFd (fallbackMarkLoop s fd fuel) x = some true := by
  induction fuel with
  | zero => intro s fd x _ hle hlt; omega
  | succ fuel' ih =>
    intro s fd x hopen hle hlt
    unfold fallbackMarkLoop
    by_cases hxn : x = fd
    · subst hxn
      cases hm : markCloseOnExec s (x : Int) with
      | none =>
        rw [markCloseOnExec_natCast] at hm
        cases hg : getFd s x with
        | none => exact absurd hg hopen
        | some flag => rw [hg] at hm; exact absurd hm (by simp)
      | some s1 =>
        exact fallbackMarkLoop_mono fuel' s1 (x + 1) x
          (markCloseOnExec_marks s s1 x hm)
    · cases hm : markCloseOnExec s (fd : Int) with
      | none => exact ih s (fd + 1) x hopen (by omega) (by omega)
      | some s1 =>
        refine ih s1 (fd + 1) x ?_ (by omega) (by omega)
        by_cases hxf : x = fd
        · exact absurd hxf hxn
        · rw [markCloseOnExec_getFd_ne s s1 _ x hxf hm]; exact hopen

theorem getFd_mem (s : FdState) (x : Nat) (b : Bool) (h : getFd s x = some b) :
    (x, b) ∈ s := by
  unfold getFd at h
  cases hf : s.find? (fun e => e.1 = x) with
  | none => rw [hf] at h; exact absurd h (by simp)
  | some e =>
    rw [hf] at h
    have h1 : e.1 = x := by simpa using List.find?_some hf
    have h2 : e.2 = b := by simpa using h
    have := List.mem_of_find?_eq_some hf
    rw [← h1, ← h2]
    simpa using this

/-- C3: after the quarantine step, every open descriptor at or above
`STDERR_FILENO + 1` carries the close-on-exec flag — so no descriptor
beyond 0, 1, 2 is inherited open by the exec'd image — whether the
directory-enumeration strategy or the linear-scan fallback performed the
marking.  The enumeration hypothesis says the fd directory lists every
open descriptor beyond stderr; the fallback hypothesis says every open
descriptor is below the `sysconf(_SC_OPEN_MAX)` bound. -/
theorem quarantineStep_cloexec :
    (∀ (names : List String) (s s' : FdState),
      markDescriptorsCloseOnExec (some names) s = some s' →
      (∀ e ∈ s, 3 ≤ e.1 → ∃ nm ∈ names,
        isAsciiDigit (nm.toList.headD ' ') = true ∧ strtolNat nm = e.1) →
      ∀ x b, getFd s' x = some b → 3 ≤ x → b = true) ∧
    (∀ (maxFd : Nat) (s : FdState),
      (∀ e ∈ s, e.1 < maxFd) →
      ∀ x b, getFd (fallbackMark maxFd s) x = some b → 3 ≤ x → b = true) ∧
    (∀ (dirents : Option (List String)) (maxFd : Nat) (s : FdState),
      (∀ e ∈ s, e.1 < maxFd) →
      (∀ names, dirents = some names → ∀ e ∈ s, 3 ≤ e.1 → ∃ nm ∈ names,
        isAsciiDigit (nm.toList.headD ' ') = true ∧ strtolNat nm = e.1) →
      ∀ x b, getFd (quarantineStep dirents maxFd s) x = some b →
        (3 ≤ x → b = true) ∧ (b = false → x < 3)) := by
  have henum : ∀ (names : List String) (s s' : FdState),
      markDirentsLoop s names = some s' →
      (∀ e ∈ s, 3 ≤ e.1 → ∃ nm ∈ names,
        isAsciiDigit (nm.toList.headD ' ') = true ∧ strtolNat nm = e.1) →
      ∀ x b, getFd s' x = some b → 3 ≤ x → b = true := by
    intro names s s' hrun hns x b hx h3
    have hopen : (getFd s x).isSome = true := by
      rw [← markDirentsLoop_isSome names s s' hrun x, hx]; rfl
    cases hg : getFd s x with
    | none => rw [hg] at hopen; exact absurd hopen (by simp)
    | some c =>
      obtain ⟨nm, hnm, hdig, hval⟩ := hns (x, c) (getFd_mem s x c hg) h3
      have := markDirentsLoop_marks names s s' hrun nm hnm hdig (hval ▸ h3)
      rw [hval] at this
      rw [hx] at this
      simpa using this.symm
  have hfb : ∀ (maxFd : Nat) (s : FdState),
      (∀ e ∈ s, e.1 < maxFd) →
      ∀ x b, getFd (fallbackMark maxFd s) x = some b → 3 ≤ x → b = true := by
    intro maxFd s hmax x b hx h3
    have hsome : (getFd s x).isSome = true := by
      rw [← fallbackMarkLoop_isSome _ s _ x]
      unfold fallbackMark at hx
      rw [hx]
      rfl
    cases hg : getFd s x with
    | none => rw [hg] at hsome; exact absurd hsome (by simp)
    | some c =>
      have hlt : x < maxFd := hmax (x, c) (getFd_mem s x c hg)
      have h3' : (STDERR_FILENO + 1).toNat = 3 := by decide
      have := fallbackMarkLoop_marks (maxFd - (STDERR_FILENO + 1).toNat) s
        (STDERR_FILENO + 1).toNat x (by rw [hg]; simp) (by omega) (by omega)
      unfold fallbackMark at hx
      rw [hx] at this
      simpa using this.symm
  refine ⟨fun names s s' h => henum names s s' (by simpa [markDescriptorsCloseOnExec] using h),
    hfb, ?_⟩
  intro dirents maxFd s hmax hns x b hx
  have hb : 3 ≤ x → b = true := by
    intro h3
    unfold quarantineStep at hx
    cases hd : dirents with
    | none =>
      rw [hd] at hx
      simp only [markDescriptorsCloseOnExec] at hx
      exact hfb maxFd s hmax x b hx h3
    | some names =>
      rw [hd] at hx
      simp only [markDescriptorsCloseOnExec] at hx
      cases hrun : markDirentsLoop s names with
      | none => rw [hrun] at hx; exact hfb maxFd s hmax x b hx h3
      | some s1 =>
        rw [hrun] at hx
        exact henum names s s1 hrun (hns names hd) x b hx h3
  refine ⟨hb, fun hfalse => ?_⟩
  by_contra hge
  have := hb (by omega)
  rw [hfalse] at this
  exact absurd this (by simp)

/-- Witness for C3 at a concrete table and fd listing: descriptors 0, 1,
3, 5 open, the fd directory lists 3 and 5, and the quarantined table
reports descriptor 5 close-on-exec. -/
theorem quarantineStep_cloexec_witness :
    ((∀ e ∈ ([(0, false), (1, false), (3, false), (5, false)] : FdState),
        e.1 < 8) ∧
      (∀ names, (some ["3", "5"] : Option (List String)) = some names →
        ∀ e ∈ ([(0, false), (1, false), (3, false), (5, false)] : FdState),
          3 ≤ e.1 → ∃ nm ∈ names,
            isAsciiDigit (nm.toList.headD ' ') = true ∧ strtolNat nm = e.1) ∧
      getFd (quarantineStep (some ["3", "5"]) 8
        [(0, false), (1, false), (3, false), (5, false)]) 5 = some true) ∧
    ((3 ≤ 5 → true = true) ∧ (true = false → 5 < 3)) :=
  ⟨⟨by decide, by decide, by decide⟩,
    quarantineStep_cloexec.2.2 (some ["3", "5"]) 8
      [(0, false), (1, false), (3, false), (5, false)]
      (by decide)
      (by intro names hn; cases hn; decide)
      5 true (by decide)⟩

/-! ### C6: reliable I/O primitives -/

theorem chunkCount_cons_eintr (evs : List IOEv) :
    chunkCount (.eintr :: evs) = chunkCount evs := by
  simp [chunkCount]

theorem chunkCount_cons_chunk (k : Nat) (evs : List IOEv) :
    chunkCount (.chunk k :: evs) = chunkCount evs + 1 := by
  simp [chunkCount, List.filter]

theorem chunksPos_tail (ev : IOEv) (evs : List IOEv) (h : chunksPos (ev :: evs)) :
    chunksPos evs :=
  fun e he => h e (List.mem_cons_of_mem _ he)

theorem noIOErr_tail (ev : IOEv) (evs : List IOEv) (h : noIOErr (ev :: evs)) :
    noIOErr evs :=
  fun e he => h e (List.mem_cons_of_mem _ he)

theorem readFullyLoop_full (nbyte : Nat) :
    ∀ (evs : List IOEv) (data : List Nat) (rem : Nat) (acc : List Nat),
      1 ≤ rem → rem ≤ data.length → rem ≤ chunkCount evs →
      chunksPos evs → noIOErr evs →
      readFullyLoop nbyte evs data rem acc =
        some ⟨(nbyte : Int), acc ++ data.take rem⟩ := by
  intro evs
  induction evs with
  | nil =>
    intro data rem acc h1 h2 h3 hpos herr
    simp [chunkCount] at h3
    omega
  | cons ev evs ih =>
    intro data rem acc h1 h2 h3 hpos herr
    cases ev with
    | eintr =>
      rw [chunkCount_cons_eintr] at h3
      exact ih data rem acc h1 h2 h3 (chunksPos_tail _ _ hpos)
        (noIOErr_tail _ _ herr)
    | ioerr e =>
      have := herr (.ioerr e) (List.mem_cons_self _ _)
      simp [isErr] at this
    | chunk k =>
      have hk : 1 ≤ k := by
        have := hpos (.chunk k) (List.mem_cons_self _ _)
        simpa [chunkOk] using this
      have hnle : min (min k rem) data.length ≤ rem :=
        le_trans (Nat.min_le_left _ _) (Nat.min_le_right _ _)
      have hn : 0 < min (min k rem) data.length := by
        simp only [Nat.lt_min]
        omega
      simp only [readFullyLoop]
      rw [if_neg (by omega)]
      by_cases hrem : rem - min (min k rem) data.length = 0
      · have heq : min (min k rem) data.length = rem := by omega
        rw [if_pos hrem, heq]
      · rw [if_neg hrem]
        rw [chunkCount_cons_chunk] at h3
        have := ih (data.drop (min (min k rem) data.length))
          (rem - min (min k rem) data.length)
          (acc ++ data.take (min (min k rem) data.length))
          (by omega)
          (by rw [List.length_drop]; omega)
          (by omega)
          (chunksPos_tail _ _ hpos) (noIOErr_tail _ _ herr)
        rw [this]
        rw [List.append_assoc]
        rw [show data.take rem =
          data.take (min (min k rem) data.length) ++
            (data.drop (min (min k rem) data.length)).take
              (rem - min (min k rem) data.length) from by
          rw [← List.take_add]
          congr 1
          omega]

theorem readFullyLoop_eof (nbyte : Nat) :
    ∀ (evs : List IOEv) (data : List Nat) (rem : Nat) (acc : List Nat),
      data.length < rem → data.length + 1 ≤ chunkCount evs →
      chunksPos evs → noIOErr evs →
      readFullyLoop nbyte evs data rem acc =
        some ⟨(nbyte : Int) - (rem : Int) + data.length, acc ++ data⟩ := by
  intro evs
  induction evs with
  | nil =>
    intro data rem acc h1 h2 hpos herr
    simp [chunkCount] at h2
  | cons ev evs ih =>
    intro data rem acc h1 h2 hpos herr
    cases ev with
    | eintr =>
      rw [chunkCount_cons_eintr] at h2
      exact ih data rem acc h1 h2 (chunksPos_tail _ _ hpos)
        (noIOErr_tail _ _ herr)
    | ioerr e =>
      have := herr (.ioerr e) (List.mem_cons_self _ _)
      simp [isErr] at this
    | chunk k =>
      have hk : 1 ≤ k := by
        have := hpos (.chunk k) (List.mem_cons_self _ _)
        simpa [chunkOk] using this
      by_cases hlen : data.length = 0
      · simp only [readFullyLoop]
        rw [if_pos (by rw [hlen]; simp)]
        have hdata : data = [] := List.length_eq_zero.mp hlen
        subst hdata
        simp
      · have hnle : min (min k rem) data.length ≤ data.length :=
          Nat.min_le_right _ _
        have hn : 0 < min (min k rem) data.length := by
          simp only [Nat.lt_min]
          omega
        simp only [readFullyLoop]
        rw [if_neg (by omega), if_neg (by omega)]
        rw [chunkCount_cons_chunk] at h2
        have := ih (data.drop (min (min k rem) data.length))
          (rem - min (min k rem) data.length)
          (acc ++ data.take (min (min k rem) data.length))
          (by rw [List.length_drop]; omega)
          (by rw [List.length_drop]; omega)
          (chunksPos_tail _ _ hpos) (noIOErr_tail _ _ herr)
        rw [this]
        rw [List.append_assoc, List.take_append_drop]
        congr 1
        simp only [List.length_drop]
        have c1 : min (min k rem) data.length ≤ rem :=
          le_trans (Nat.min_le_left _ _) (Nat.min_le_right _ _)
        rw [Nat.cast_sub c1, Nat.cast_sub hnle]
        ring_nf

theorem readFullyLoop_err (nbyte : Nat) (rest : List IOEv) (data : List Nat)
    (rem : Nat) (acc : List Nat) (e : Int) :
    ∀ pre : List IOEv, (∀ ev ∈ pre, ev = IOEv.eintr) →
      readFullyLoop nbyte (pre ++ .ioerr e :: rest) data rem acc =
        some ⟨-1, acc⟩ := by
  intro pre
  induction pre with
  | nil => intro _; rfl
  | cons hd pre ih =>
    intro hall
    have hhd : hd = IOEv.eintr := hall hd (List.mem_cons_self _ _)
    subst hhd
    exact ih (fun ev he => hall ev (List.mem_cons_of_mem _ he))

theorem writeFullyLoop_full (nbyte : Nat) :
    ∀ (evs : List IOEv) (buf : List Nat) (rem : Nat) (out : List Nat),
      1 ≤ rem → rem ≤ chunkCount evs → chunksPos evs → noIOErr evs →
      writeFullyLoop nbyte evs buf rem out =
        some ⟨(nbyte : Int), out ++ buf.take rem⟩ := by
  intro evs
  induction evs with
  | nil =>
    intro buf rem out h1 h3 hpos herr
    simp [chunkCount] at h3
    omega
  | cons ev evs ih =>
    intro buf rem out h1 h3 hpos herr
    cases ev with
    | eintr =>
      rw [chunkCount_cons_eintr] at h3
      exact ih buf rem out h1 h3 (chunksPos_tail _ _ hpos)
        (noIOErr_tail _ _ herr)
    | ioerr e =>
      have := herr (.ioerr e) (List.mem_cons_self _ _)
      simp [isErr] at this
    | chunk k =>
      have hk : 1 ≤ k := by
        have := hpos (.chunk k) (List.mem_cons_self _ _)
        simpa [chunkOk] using this
      have hnle : min k rem ≤ rem := Nat.min_le_right _ _
      have hn : 0 < min k rem := by
        simp only [Nat.lt_min]
        omega
      simp only [writeFullyLoop]
      rw [if_pos hn]
      by_cases hrem : rem - min k rem = 0
      · have heq : min k rem = rem := by omega
        rw [if_pos hrem, heq]
      · rw [if_neg hrem]
        rw [chunkCount_cons_chunk] at h3
        have := ih (buf.drop (min k rem)) (rem - min k rem)
          (out ++ buf.take (min k rem)) (by omega) (by omega)
          (chunksPos_tail _ _ hpos) (noIOErr_tail _ _ herr)
        rw [this]
        rw [List.append_assoc]
        rw [show buf.take rem =
          buf.take (min k rem) ++ (buf.drop (min k rem)).take (rem - min k rem)
            from by
          rw [← List.take_add]
          congr 1
          omega]

theorem writeFullyLoop_err (nbyte : Nat) (rest : List IOEv) (buf : List Nat)
    (rem : Nat) (out : List Nat) (e : Int) :
    ∀ pre : List IOEv, (∀ ev ∈ pre, ev = IOEv.eintr) →
      writeFullyLoop nbyte (pre ++ .ioerr e :: rest) buf rem out =
        some ⟨-1, out⟩ := by
  intro pre
  induction pre with
  | nil => intro _; rfl
  | cons hd pre ih =>
    intro hall
    have hhd : hd = IOEv.eintr := hall hd (List.mem_cons_self _ _)
    subst hhd
    exact ih (fun ev he => hall ev (List.mem_cons_of_mem _ he))

/-- C6: `readFully` and `writeFully` retry through any number of `EINTR`
responses and resume partial transfers in order: on a transport with
enough positive-progress calls and no hard error, `readFully` delivers
exactly the first `n` bytes of the stream and returns `n`, and
`writeFully` transfers exactly the `n` buffer bytes and returns `n`; at
end-of-file `readFully` returns the count of bytes actually obtained with
those bytes delivered in order; and on a hard error (after any prefix of
interruptions) both return -1. -/
theorem readFully_writeFully_spec :
    (∀ (evs : List IOEv) (data : List Nat) (n : Nat),
      1 ≤ n → n ≤ data.length → n ≤ chunkCount evs → chunksPos evs →
      noIOErr evs →
      readFully evs data n = some ⟨(n : Int), data.take n⟩) ∧
    (∀ (evs : List IOEv) (data : List Nat) (n : Nat),
      data.length < n → data.length + 1 ≤ chunkCount evs → chunksPos evs →
      noIOErr evs →
      readFully evs data n = some ⟨(data.length : Int), data⟩) ∧
    (∀ (pre rest : List IOEv) (data : List Nat) (n : Nat) (e : Int),
      (∀ ev ∈ pre, ev = IOEv.eintr) →
      readFully (pre ++ .ioerr e :: rest) data n = some ⟨-1, []⟩) ∧
    (∀ (evs : List IOEv) (buf : List Nat) (n : Nat),
      1 ≤ n → buf.length = n → n ≤ chunkCount evs → chunksPos evs →
      noIOErr evs →
      writeFully evs buf n = some ⟨(n : Int), buf⟩) ∧
    (∀ (pre rest : List IOEv) (buf : List Nat) (n : Nat) (e : Int),
      (∀ ev ∈ pre, ev = IOEv.eintr) →
      writeFully (pre ++ .ioerr e :: rest) buf n = some ⟨-1, []⟩) := by
  refine ⟨?_, ?_, ?_, ?_, ?_⟩
  · intro evs data n h1 h2 h3 hpos herr
    unfold readFully
    exact readFullyLoop_full n evs data n [] h1 h2 h3 hpos herr
  · intro evs data n h1 h2 hpos herr
    unfold readFully
    rw [readFullyLoop_eof n evs data n [] h1 h2 hpos herr]
    simp
  · intro pre rest data n e hall
    exact readFullyLoop_err n rest data n [] e pre hall
  · intro evs buf n h1 h2 h3 hpos herr
    unfold writeFully
    rw [writeFullyLoop_full n evs buf n [] h1 h3 hpos herr]
    rw [show buf.take n = buf from by rw [← h2]; exact List.take_length buf]
    rfl
  · intro pre rest buf n e hall
    exact writeFullyLoop_err n rest buf n [] e pre hall

/-- Witness for C6: three-byte reads and writes over transports with
interruptions, a short stream, and a hard error. -/
theorem readFully_writeFully_spec_witness :
    readFully [.eintr, .chunk 2, .chunk 5, .chunk 1] [9, 8, 7] 3 =
        some ⟨3, [9, 8, 7]⟩ ∧
    readFully [.chunk 4, .chunk 4, .chunk 4] [9, 8] 3 = some ⟨2, [9, 8]⟩ ∧
    readFully [.eintr, .ioerr 9, .chunk 1] [9, 8, 7] 3 = some ⟨-1, []⟩ ∧
    writeFully [.eintr, .chunk 1, .chunk 9, .chunk 9] [4, 5, 6] 3 =
        some ⟨3, [4, 5, 6]⟩ ∧
    writeFully [.ioerr 9] [4, 5, 6] 3 = some ⟨-1, []⟩ :=
  ⟨readFully_writeFully_spec.1 [.eintr, .chunk 2, .chunk 5, .chunk 1] [9, 8, 7]
      3 (by decide) (by decide) (by decide) (by decide) (by decide),
    readFully_writeFully_spec.2.1 [.chunk 4, .chunk 4, .chunk 4] [9, 8] 3
      (by decide) (by decide) (by decide) (by decide),
    readFully_writeFully_spec.2.2.1 [.eintr] [.chunk 1] [9, 8, 7] 3 9
      (by decide),
    readFully_writeFully_spec.2.2.2.1 [.eintr, .chunk 1, .chunk 9, .chunk 9]
      [4, 5, 6] 3 (by decide) (by decide) (by decide) (by decide) (by decide),
    readFully_writeFully_spec.2.2.2.2 [] [] [4, 5, 6] 3 9 (by decide)⟩

/-! ### C1: terminal-outcome exclusivity of childProcess -/

/-- C1: every run of `childProcess` ends in exactly one of two terminal
outcomes.  Either the exec succeeds: the failure channel carries at most
the optional alive-ping sentinel, never an error code, and the tail close
never runs; or a failure is detected: exactly one integer — the captured
errno — follows the optional ping, nothing follows it, the channel is
closed, and the process exits with the non-zero `_exit(-1)` status.
Never both. -/
theorem childProcess_exclusive (p : ChildStuff) (w : ChildWorld) :
    (((childProcess p w).outcome = .execSuccess ∧
        (childProcess p w).failClosed = false ∧
        ((childProcess p w).failMsgs = [] ∨
          (childProcess p w).failMsgs = [CHILD_IS_ALIVE])) ∨
      (∃ e : Int, (childProcess p w).outcome = .exited (-1) ∧
        ((-1 : Int) ≠ 0) ∧ (childProcess p w).failClosed = true ∧
        ((childProcess p w).failMsgs = [e] ∨
          (childProcess p w).failMsgs = [CHILD_IS_ALIVE, e]))) ∧
    ¬((childProcess p w).outcome = .execSuccess ∧
      (childProcess p w).outcome = .exited (-1)) := by
  constructor
  · unfold childProcess
    cases hping : (if p.sendAlivePing then w.pingErr else none) with
    | some e =>
      right
      exact ⟨e, by simp, by norm_num, by simp, Or.inl (by simp)⟩
    | none =>
      cases hbody : childBody p w with
      | error e =>
        right
        refine ⟨e, by simp, by norm_num, by simp, ?_⟩
        by_cases hsap : p.sendAlivePing
        · right; simp [hsap]
        · left; simp [hsap]
      | ok s =>
        generalize JDK_execvpe w.sys w.environLive w.parentPathv p.mode
          (p.argv.headD "") p.argv p.envv w.envIsEnviron w.errno0 = R
        by_cases hr : R.replaced
        · left
          refine ⟨by simp [hr], by simp [hr], ?_⟩
          by_cases hsap : p.sendAlivePing
          · right; simp [hr, hsap]
          · left; simp [hr, hsap]
        · right
          refine ⟨R.errno, by simp [hr], by norm_num, by simp [hr], ?_⟩
          by_cases hsap : p.sendAlivePing
          · right; simp [hr, hsap]
          · left; simp [hr, hsap]
  · rintro ⟨h1, h2⟩
    rw [h1] at h2
    exact absurd h2 (by simp)

end ChildProc
